import Mathlib

/-!
Verification model of the rknn-vit-tracker pipeline (preprocess.rs,
postprocess.rs, tracker.rs).

Embedding conventions:
* `f32` values are modelled by the type `F` below: `nan`, the two
  infinities, and exact rationals for finite values.  Arithmetic on
  finite values is exact rational arithmetic (the idealisation of the
  float rounding); the nan/infinity propagation rules of IEEE-754 are
  kept, because the decoder's comparisons depend on them.  Signed zero
  and overflow-to-infinity are not modelled.
* `i32` values are modelled by `Int`.  Rust's `/` on `i32` truncates
  toward zero, which is `Int.tdiv`.  Rust's saturating float-to-int
  cast `.floor() as i32` is modelled by `F.floorCastI32` (clamping to
  the `i32` range, `nan` mapping to 0).  Rust's `as usize` on an `i32`
  sign-extends and reinterprets, which is `i32AsUsize` below.
* `u8` pixels are `ℕ`; an image is its two dimensions together with a
  total pixel function (the source guarantees three channels).
* The model output maps (`conf_map`, `size_map`, `offset_map`, and the
  Hanning window) are total families `ℕ → F`; the code only reads the
  documented index ranges.
* A Rust panic (an out-of-bounds `ndarray` index) is modelled by an
  `Option` result, `none` meaning the function panics.
* The crop size `(bbox.area().sqrt() * factor as f32).ceil() as i32`
  of preprocess.rs line 67 involves a float square root, which has no
  exact rational counterpart; it is always nonnegative, and it is kept
  as an explicit `ℕ` parameter (`crop_sz`) of the crop pipeline and as
  an oracle parameter of the tracker.
-/

/-- Model of an `f32` value: nan, the infinities, or an exact finite value. -/
inductive F where
  | nan : F
  | ninf : F
  | pinf : F
  | fin : ℚ → F
deriving DecidableEq

namespace F

/-- Is this float a nan? -/
def isNaN : F → Bool
  | nan => true
  | _ => false

/-- Is this float finite? -/
def isFin : F → Bool
  | fin _ => true
  | _ => false

/-- The rational value of a finite float (junk 0 otherwise). -/
def toRat : F → ℚ
  | fin q => q
  | _ => 0

/-- IEEE-754 `>` on floats: any comparison with a nan is false. -/
def fgt : F → F → Bool
  | nan, _ => false
  | _, nan => false
  | pinf, pinf => false
  | pinf, _ => true
  | _, pinf => false
  | ninf, _ => false
  | fin _, ninf => true
  | fin a, fin b => decide (b < a)

/-- IEEE-754 `>=` on floats: any comparison with a nan is false. -/
def fge : F → F → Bool
  | nan, _ => false
  | _, nan => false
  | pinf, _ => true
  | _, pinf => false
  | _, ninf => true
  | ninf, _ => false
  | fin a, fin b => decide (b ≤ a)

/-- IEEE-754 multiplication (finite values exact; infinity times zero is nan). -/
def mul : F → F → F
  | nan, _ => nan
  | _, nan => nan
  | pinf, pinf => pinf
  | pinf, ninf => ninf
  | ninf, pinf => ninf
  | ninf, ninf => pinf
  | pinf, fin q => if 0 < q then pinf else if q < 0 then ninf else nan
  | fin q, pinf => if 0 < q then pinf else if q < 0 then ninf else nan
  | ninf, fin q => if 0 < q then ninf else if q < 0 then pinf else nan
  | fin q, ninf => if 0 < q then ninf else if q < 0 then pinf else nan
  | fin a, fin b => fin (a * b)

/-- IEEE-754 addition (finite values exact; opposite infinities give nan). -/
def add : F → F → F
  | nan, _ => nan
  | _, nan => nan
  | pinf, ninf => nan
  | ninf, pinf => nan
  | pinf, _ => pinf
  | _, pinf => pinf
  | ninf, _ => ninf
  | _, ninf => ninf
  | fin a, fin b => fin (a + b)

/-- IEEE-754 negation. -/
def neg : F → F
  | nan => nan
  | pinf => ninf
  | ninf => pinf
  | fin q => fin (-q)

/-- IEEE-754 subtraction. -/
def sub (a b : F) : F := add a (neg b)

/-- IEEE-754 division (finite values exact; signed zero not modelled,
a nonzero finite value divided by zero gives the signed infinity). -/
def div : F → F → F
  | nan, _ => nan
  | _, nan => nan
  | pinf, pinf => nan
  | pinf, ninf => nan
  | ninf, pinf => nan
  | ninf, ninf => nan
  | pinf, fin q => if q < 0 then ninf else pinf
  | ninf, fin q => if q < 0 then pinf else ninf
  | fin _, pinf => fin 0
  | fin _, ninf => fin 0
  | fin a, fin b =>
    if b = 0 then (if a = 0 then nan else if 0 < a then pinf else ninf)
    else fin (a / b)

end F

/-- Least `i32` value. -/
def i32min : Int := -(2 ^ 31)

/-- Greatest `i32` value. -/
def i32max : Int := 2 ^ 31 - 1

/-- Clamp an integer into the `i32` range (Rust saturating cast). -/
def i32clamp (z : Int) : Int := max i32min (min i32max z)

namespace F

/-- Rust's `.floor() as i32` on an `f32`: floor, saturate to the `i32`
range; nan casts to 0. -/
def floorCastI32 : F → Int
  | nan => 0
  | pinf => i32max
  | ninf => i32min
  | fin q => i32clamp ⌊q⌋

end F

/-- Rust's `as usize` on an `i32` (64-bit target): sign-extend and
reinterpret, i.e. reduce modulo `2 ^ 64`. -/
def i32AsUsize (z : Int) : ℕ := (z % 2 ^ 64).toNat

/-- Bounding box `[x, y, width, height]` (preprocess.rs `BBox`, also the
`[i32; 4]` rectangle of postprocess.rs, in the same field order). -/
structure BBox where
  x : Int
  y : Int
  width : Int
  height : Int
deriving DecidableEq

/-- An image: dimensions and a (row, column, channel) pixel function,
8-bit channel values as naturals; three channels. -/
structure Image where
  h : ℕ
  w : ℕ
  pix : ℕ → ℕ → ℕ → ℕ

/-- Tracking result (postprocess.rs `TrackingResult`). -/
structure TrackingResult where
  success : Bool
  bbox : BBox
  score : F
deriving DecidableEq

/-- `TrackingResult::default()`: not tracking, zero box, zero score. -/
def TrackingResult.default : TrackingResult :=
  { success := false, bbox := ⟨0, 0, 0, 0⟩, score := F.fin 0 }

/-! ## Preprocessing (preprocess.rs) -/

/-- ImageNet mean values per channel (preprocess.rs `MEAN`). -/
def MEAN : ℕ → ℚ := fun c => if c = 0 then 0.485 else if c = 1 then 0.456 else 0.406

/-- ImageNet std values per channel (preprocess.rs `STD`). -/
def STD : ℕ → ℚ := fun c => if c = 0 then 0.229 else if c = 1 then 0.224 else 0.225

/-- All integer quantities computed by `crop_and_preprocess` before the
copy loop (preprocess.rs lines 62-96), for an image, a box and the crop
size `crop_sz`.  `crop_sz` is the nonnegative result of
`(bbox.area().sqrt() * factor as f32).ceil() as i32` (line 67), kept as
a parameter. -/
structure CropGeom where
  x1 : Int
  x2 : Int
  y1 : Int
  y2 : Int
  x1_pad : Int
  y1_pad : Int
  x2_pad : Int
  y2_pad : Int
  roi_x1 : ℕ
  roi_y1 : ℕ
  roi_x2 : ℕ
  roi_y2 : ℕ
  src_h : ℕ
  src_w : ℕ
  dst_y1 : ℕ
  dst_x1 : ℕ

/-- Compute the crop geometry (preprocess.rs lines 62-96).  `usize`
subtraction is saturating (`saturating_sub`), hence truncated `ℕ`
subtraction; the two `as usize` casts on `roi_x2`/`roi_y2` can wrap on
negative inputs, which `i32AsUsize` models. -/
def cropGeom (img : Image) (bbox : BBox) (crop_sz : ℕ) : CropGeom :=
  let x1 : Int := bbox.x + Int.tdiv (bbox.width - crop_sz) 2
  let x2 : Int := x1 + crop_sz
  let y1 : Int := bbox.y + Int.tdiv (bbox.height - crop_sz) 2
  let y2 : Int := y1 + crop_sz
  let x1_pad : Int := max (-x1) 0
  let y1_pad : Int := max (-y1) 0
  let x2_pad : Int := max (x2 - img.w) 0
  let y2_pad : Int := max (y2 - img.h) 0
  let roi_x1 : ℕ := (max (x1 + x1_pad) 0).toNat
  let roi_y1 : ℕ := (max (y1 + y1_pad) 0).toNat
  let roi_x2 : ℕ := i32AsUsize (min (x2 - x2_pad) img.w)
  let roi_y2 : ℕ := i32AsUsize (min (y2 - y2_pad) img.h)
  { x1 := x1, x2 := x2, y1 := y1, y2 := y2
    x1_pad := x1_pad, y1_pad := y1_pad, x2_pad := x2_pad, y2_pad := y2_pad
    roi_x1 := roi_x1, roi_y1 := roi_y1, roi_x2 := roi_x2, roi_y2 := roi_y2
    src_h := roi_y2 - roi_y1, src_w := roi_x2 - roi_x1
    dst_y1 := y1_pad.toNat, dst_x1 := x1_pad.toNat }

/-- The copy loop of `crop_and_preprocess` (preprocess.rs lines 98-108)
panics: some reached iteration writes outside the
`crop_sz × crop_sz × 3` buffer. -/
def CropPanics (img : Image) (bbox : BBox) (crop_sz : ℕ) : Prop :=
  let g := cropGeom img bbox crop_sz
  0 < g.src_h ∧ 0 < g.src_w ∧ g.roi_y1 < img.h ∧ g.roi_x1 < img.w ∧
    ∃ y < g.src_h, ∃ x < g.src_w,
      (g.roi_y1 + y < img.h ∧ g.roi_x1 + x < img.w) ∧
      (crop_sz ≤ g.dst_y1 + y ∨ crop_sz ≤ g.dst_x1 + x)

instance (img : Image) (bbox : BBox) (crop_sz : ℕ) :
    Decidable (CropPanics img bbox crop_sz) := by
  unfold CropPanics
  exact inferInstance

/-- The padded crop buffer after the copy loop (preprocess.rs lines
90-108), as a function of destination row, column and channel: the
pixel copied there if that cell is written, otherwise the zero fill. -/
def cropBuf (img : Image) (bbox : BBox) (crop_sz : ℕ) : ℕ → ℕ → ℕ → ℕ :=
  fun Y X c =>
    let g := cropGeom img bbox crop_sz
    if 0 < g.src_h ∧ 0 < g.src_w ∧ g.roi_y1 < img.h ∧ g.roi_x1 < img.w ∧
        g.dst_y1 ≤ Y ∧ Y < g.dst_y1 + g.src_h ∧
        g.dst_x1 ≤ X ∧ X < g.dst_x1 + g.src_w ∧
        g.roi_y1 + (Y - g.dst_y1) < img.h ∧ g.roi_x1 + (X - g.dst_x1) < img.w then
      img.pix (g.roi_y1 + (Y - g.dst_y1)) (g.roi_x1 + (X - g.dst_x1)) c
    else 0

/-- Rust's `f32::round`: round half away from zero. -/
def rustRound (q : ℚ) : Int := if 0 ≤ q then ⌊q + 1 / 2⌋ else -⌊-q + 1 / 2⌋

/-- Bilinear resize (preprocess.rs `resize_bilinear`, lines 118-160):
source buffer of dimensions `old_h × old_w × 3`, destination
`new_h × new_w × 3`; sample coordinates by uniform scaling, clamp the
four sample indices, interpolate, round to nearest and clamp to 8-bit. -/
def resize_bilinear (src : ℕ → ℕ → ℕ → ℕ) (old_h old_w new_h new_w : ℕ) :
    ℕ → ℕ → ℕ → ℕ :=
  if old_h = 0 ∨ old_w = 0 then fun _ _ _ => 0
  else fun y x c =>
    let scale_y : ℚ := (old_h : ℚ) / (new_h : ℚ)
    let scale_x : ℚ := (old_w : ℚ) / (new_w : ℚ)
    let src_y : ℚ := y * scale_y
    let src_x : ℚ := x * scale_x
    let y0 : ℕ := min ⌊src_y⌋.toNat (old_h - 1)
    let y1 : ℕ := min (y0 + 1) (old_h - 1)
    let x0 : ℕ := min ⌊src_x⌋.toNat (old_w - 1)
    let x1 : ℕ := min (x0 + 1) (old_w - 1)
    let dy : ℚ := src_y - y0
    let dx : ℚ := src_x - x0
    let v00 : ℚ := src y0 x0 c
    let v01 : ℚ := src y0 x1 c
    let v10 : ℚ := src y1 x0 c
    let v11 : ℚ := src y1 x1 c
    let value : ℚ := v00 * (1 - dx) * (1 - dy) + v01 * dx * (1 - dy)
      + v10 * (1 - dx) * dy + v11 * dx * dy
    (max 0 (min 255 (rustRound value))).toNat

/-- Normalisation of one 8-bit channel value (preprocess.rs lines
175-176): scale to `[0, 1]`, subtract the channel mean, divide by the
channel std. -/
def normalizeChan (v : ℕ) (ch : ℕ) : ℚ := ((v : ℚ) / 255 - MEAN ch) / STD ch

/-- Flatten and normalise to NHWC float (preprocess.rs
`preprocess_nhwc`, lines 165-185): output index
`y * w * 3 + x * 3 + ch` holds the normalised channel `ch` of pixel
`(y, x)` (the source keeps channel order: `src_ch = ch`). -/
def preprocess_nhwc (src : ℕ → ℕ → ℕ → ℕ) (h w : ℕ) : List ℚ :=
  (List.range (h * w * 3)).map fun idx =>
    let y := idx / (w * 3)
    let x := (idx % (w * 3)) / 3
    let ch := idx % 3
    normalizeChan (src y x ch) ch

/-- Crop and preprocess (preprocess.rs `crop_and_preprocess`, lines
56-115) for a given crop size: `none` when the copy loop panics,
otherwise the flat normalised tensor and the crop size. -/
def crop_and_preprocess (img : Image) (bbox : BBox) (crop_sz : ℕ)
    (output_size : ℕ) : Option (List ℚ × ℕ) :=
  if CropPanics img bbox crop_sz then none
  else
    some (preprocess_nhwc
      (resize_bilinear (cropBuf img bbox crop_sz) crop_sz crop_sz
        output_size output_size)
      output_size output_size, crop_sz)

/-! ## Postprocessing (postprocess.rs) -/

/-- The windowed confidence map (postprocess.rs lines 72-75): the
elementwise product of the confidence map and the Hanning window over
the `16 * 16 = 256` grid cells, in row-major scan order. -/
def conf_windowed (conf_map hanning : ℕ → F) : List F :=
  (List.range 256).map fun i => F.mul (conf_map i) (hanning i)

/-- The loop body state of `find_max` (postprocess.rs lines 114-126):
walk the array with the running `(max_idx, max_val)` pair, updating it
whenever the current value compares strictly greater. -/
def findMaxAux : List F → ℕ → ℕ × F → ℕ × F
  | [], _, acc => acc
  | v :: rest, i, acc =>
    findMaxAux rest (i + 1) (if F.fgt v acc.2 then (i, v) else acc)

/-- Find the maximum value and its index (postprocess.rs `find_max`),
starting from index 0 and `f32::NEG_INFINITY`. -/
def find_max (arr : List F) : ℕ × F := findMaxAux arr 0 (0, F.ninf)

/-- The crop origin x used by `update_rect` (postprocess.rs line 131):
`rect[0] + (rect[2] - crop_size) / 2` in truncating `i32` division. -/
def rectOriginX (rect : BBox) (crop_size : Int) : Int :=
  rect.x + Int.tdiv (rect.width - crop_size) 2

/-- The crop origin y used by `update_rect` (postprocess.rs line 132). -/
def rectOriginY (rect : BBox) (crop_size : Int) : Int :=
  rect.y + Int.tdiv (rect.height - crop_size) 2

/-- Update the rectangle from the decoded centre and size
(postprocess.rs `update_rect`, lines 129-142). -/
def update_rect (rect : BBox) (cx cy w h : F) (crop_size : Int) : BBox :=
  let x0 := rectOriginX rect crop_size
  let y0 := rectOriginY rect crop_size
  let x1 := F.sub cx (F.div w (F.fin 2))
  let y1 := F.sub cy (F.div h (F.fin 2))
  { x := F.floorCastI32 (F.add (F.mul x1 (F.fin crop_size)) (F.fin x0))
    y := F.floorCastI32 (F.add (F.mul y1 (F.fin crop_size)) (F.fin y0))
    width := F.floorCastI32 (F.mul w (F.fin crop_size))
    height := F.floorCastI32 (F.mul h (F.fin crop_size)) }

/-- Process the model outputs (postprocess.rs `process_outputs`, lines
60-111).  The `&mut [i32; 4]` rectangle is threaded explicitly: the
second component of the result is the rectangle the caller holds after
the call. -/
def process_outputs (conf_map size_map offset_map hanning : ℕ → F)
    (rect_last : BBox) (crop_size : Int) (threshold : F) :
    TrackingResult × BBox :=
  let m := find_max (conf_windowed conf_map hanning)
  let max_idx := m.1
  let max_score := m.2
  let max_loc_y := max_idx / 16
  let max_loc_x := max_idx % 16
  if F.fge max_score threshold then
    let offset_x := offset_map (0 * 256 + max_loc_y * 16 + max_loc_x)
    let offset_y := offset_map (1 * 256 + max_loc_y * 16 + max_loc_x)
    let size_w := size_map (0 * 256 + max_loc_y * 16 + max_loc_x)
    let size_h := size_map (1 * 256 + max_loc_y * 16 + max_loc_x)
    let cx := F.div (F.add (F.fin max_loc_x) offset_x) (F.fin 16)
    let cy := F.div (F.add (F.fin max_loc_y) offset_y) (F.fin 16)
    let r := update_rect rect_last cx cy size_w size_h crop_size
    (⟨true, r, max_score⟩, r)
  else
    (⟨false, rect_last, max_score⟩, rect_last)

/-! ## Tracker (tracker.rs) -/

/-- Tracker configuration (tracker.rs `VitTrackConfig`). -/
structure VitTrackConfig where
  template_size : ℕ
  search_size : ℕ
  score_size : ℕ
  template_factor : ℕ
  search_factor : ℕ
  score_threshold : F

/-- The default configuration (tracker.rs lines 18-29). -/
def VitTrackConfig.default : VitTrackConfig :=
  { template_size := 128, search_size := 256, score_size := 16
    template_factor := 2, search_factor := 4, score_threshold := F.fin 0.25 }

/-- The three output maps of the inference collaborator
(rknn.rs `VitTrackOutputs`). -/
structure VitTrackOutputs where
  conf_map : ℕ → F
  size_map : ℕ → F
  offset_map : ℕ → F

/-- Error kinds of the inference collaborator (rknn.rs `RknnError`). -/
inductive RknnError where
  | loadError : RknnError
  | inputError : RknnError
  | runError : RknnError
  | outputError : RknnError
deriving DecidableEq

/-- Tracker state (tracker.rs `VitTrack`): configuration, the
precomputed Hanning window, the optional cached template, and the last
box.  The inference model handle is the external collaborator and is
passed to `update` as an oracle instead. -/
structure VitTrackState where
  config : VitTrackConfig
  hanning : ℕ → F
  template : Option (List ℚ)
  rect_last : BBox

/-- `VitTrack::init` (tracker.rs lines 71-82): set the last box, build
and cache the template tensor.  `cropSz` is the crop-size oracle for
preprocess.rs line 67 (see the header); `none` means the crop panicked. -/
def VitTrack.init (cropSz : BBox → ℕ → ℕ) (st : VitTrackState) (img : Image)
    (bbox : BBox) : Option VitTrackState :=
  match crop_and_preprocess img bbox (cropSz bbox st.config.template_factor)
      st.config.template_size with
  | none => none
  | some (template, _) =>
    some { st with rect_last := bbox, template := some template }

/-- `VitTrack::update` (tracker.rs lines 96-128): return the default
result when no template is cached; otherwise crop the search region,
call the inference collaborator, and decode.  The outer `Option` is
panic propagation from the crop; `Except` is the propagated
collaborator error. -/
def VitTrack.update (inference : List ℚ → List ℚ → Except RknnError VitTrackOutputs)
    (cropSz : BBox → ℕ → ℕ) (st : VitTrackState) (img : Image) :
    Option (Except RknnError TrackingResult × VitTrackState) :=
  match st.template with
  | none => some (Except.ok TrackingResult.default, st)
  | some template =>
    match crop_and_preprocess img st.rect_last
        (cropSz st.rect_last st.config.search_factor) st.config.search_size with
    | none => none
    | some (search, crop_size) =>
      match inference template search with
      | Except.error e => some (Except.error e, st)
      | Except.ok outputs =>
        let pr := process_outputs outputs.conf_map outputs.size_map
          outputs.offset_map st.hanning st.rect_last crop_size
          st.config.score_threshold
        some (Except.ok pr.1, { st with rect_last := pr.2 })

/-- `VitTrack::get_bbox` (tracker.rs lines 131-133). -/
def VitTrack.get_bbox (st : VitTrackState) : BBox := st.rect_last

/-- `VitTrack::is_initialized` (tracker.rs lines 136-138). -/
def VitTrack.isInitialized (st : VitTrackState) : Bool := st.template.isSome

/-- States reachable by the tracker API: a freshly constructed tracker
(tracker.rs `with_config`, lines 50-64, with the Hanning window left
arbitrary because `hann2d` involves the float cosine), followed by any
sequence of non-panicking `init` and `update` calls. -/
inductive Reachable : VitTrackState → Prop where
  | construct (cfg : VitTrackConfig) (hanning : ℕ → F) :
      Reachable ⟨cfg, hanning, none, ⟨0, 0, 0, 0⟩⟩
  | init_step {st st' : VitTrackState} {cropSz : BBox → ℕ → ℕ} {img : Image}
      {bbox : BBox} : Reachable st →
      VitTrack.init cropSz st img bbox = some st' → Reachable st'
  | update_step {st st' : VitTrackState}
      {inference : List ℚ → List ℚ → Except RknnError VitTrackOutputs}
      {cropSz : BBox → ℕ → ℕ} {img : Image}
      {r : Except RknnError TrackingResult} : Reachable st →
      VitTrack.update inference cropSz st img = some (r, st') → Reachable st'

/-! ## Spec-side definitions

These two definitions follow the words of the specification (spec §4.2
steps 4-5 and §8), to be compared with the embedded code. -/

/-- Modelled from the spec (§4.2 steps 4-5): decode the peak grid cell
`(row, col)` with offsets `(ox, oy)` and sizes `(sw, sh)` into a new
box, back-projecting through the previous box and the crop size with
the stated formulas (`origin = prev_box.topleft +
(prev_box.size - crop_size)/2` in integer division truncating toward
zero, `x = floor((cx - w/2) * crop_size + origin_x)`, etc.). -/
def spec_decode_box (prev : BBox) (crop_size : Int) (row col : ℕ)
    (ox oy sw sh : ℚ) : BBox :=
  let origin_x : Int := prev.x + Int.tdiv (prev.width - crop_size) 2
  let origin_y : Int := prev.y + Int.tdiv (prev.height - crop_size) 2
  let cx : ℚ := ((col : ℚ) + ox) / 16
  let cy : ℚ := ((row : ℚ) + oy) / 16
  { x := ⌊(cx - sw / 2) * (crop_size : ℚ) + (origin_x : ℚ)⌋
    y := ⌊(cy - sh / 2) * (crop_size : ℚ) + (origin_y : ℚ)⌋
    width := ⌊sw * (crop_size : ℚ)⌋
    height := ⌊sh * (crop_size : ℚ)⌋ }

/-! ## Helper lemmas: float comparisons -/

namespace F

/-- Order embedding of non-nan floats into `WithBot (WithTop ℚ)`
(nan is sent to the junk value `⊥`). -/
def toW : F → WithBot (WithTop ℚ)
  | nan => ⊥
  | ninf => ⊥
  | pinf => ((⊤ : WithTop ℚ) : WithBot (WithTop ℚ))
  | fin q => ((q : WithTop ℚ) : WithBot (WithTop ℚ))

theorem fgt_nonNaN_left {a b : F} (h : fgt a b = true) : a.isNaN = false := by
  cases a <;> cases b <;> simp_all [fgt, isNaN]

theorem fgt_nan_left {a : F} (h : a.isNaN = true) (b : F) : fgt a b = false := by
  cases a <;> cases b <;> simp_all [fgt, isNaN]

theorem fgt_iff {a b : F} (ha : a.isNaN = false) (hb : b.isNaN = false) :
    fgt a b = true ↔ toW b < toW a := by
  cases a <;> cases b <;>
    simp_all [fgt, toW, isNaN, WithBot.bot_lt_coe, WithBot.coe_lt_coe] <;>
    exact lt_top_iff_ne_top.mpr (by simp)

theorem fgt_false_iff {a b : F} (ha : a.isNaN = false) (hb : b.isNaN = false) :
    fgt a b = false ↔ toW a ≤ toW b := by
  rw [Bool.eq_false_iff, Ne, fgt_iff ha hb, not_lt]

theorem fge_iff {a b : F} (ha : a.isNaN = false) (hb : b.isNaN = false) :
    fge a b = true ↔ toW b ≤ toW a := by
  cases a <;> cases b <;>
    simp_all [fge, toW, isNaN, WithBot.bot_lt_coe, WithBot.coe_lt_coe]

theorem fge_false_iff {a b : F} (ha : a.isNaN = false) (hb : b.isNaN = false) :
    fge a b = false ↔ toW a < toW b := by
  rw [Bool.eq_false_iff, Ne, fge_iff ha hb, not_le]

theorem toW_fin_le {a b : ℚ} : toW (fin a) ≤ toW (fin b) ↔ a ≤ b := by
  simp [toW, WithBot.coe_le_coe]

theorem toW_fin_lt {a b : ℚ} : toW (fin a) < toW (fin b) ↔ a < b := by
  simp [toW, WithBot.coe_lt_coe]

theorem toW_eq_bot_iff {a : F} (ha : a.isNaN = false) :
    toW a = ⊥ ↔ a = ninf := by
  cases a <;> simp_all [toW, isNaN]

@[simp] theorem mul_fin (a b : ℚ) : mul (fin a) (fin b) = fin (a * b) := rfl

@[simp] theorem add_fin (a b : ℚ) : add (fin a) (fin b) = fin (a + b) := rfl

@[simp] theorem sub_fin (a b : ℚ) : sub (fin a) (fin b) = fin (a - b) := by
  simp [sub, neg, add, sub_eq_add_neg]

theorem div_fin {b : ℚ} (a : ℚ) (hb : b ≠ 0) :
    div (fin a) (fin b) = fin (a / b) := by
  simp [div, hb]

@[simp] theorem fge_fin_fin (a b : ℚ) : fge (fin a) (fin b) = decide (b ≤ a) := rfl

@[simp] theorem fgt_fin_fin (a b : ℚ) : fgt (fin a) (fin b) = decide (b < a) := rfl

@[simp] theorem fgt_fin_ninf (a : ℚ) : fgt (fin a) ninf = true := rfl

@[simp] theorem floorCastI32_fin (q : ℚ) : floorCastI32 (fin q) = i32clamp ⌊q⌋ := rfl

/-- Anything multiplied by the finite zero floors-and-casts to 0:
finite times zero is zero, and infinity or nan times zero is nan,
which casts to 0. -/
theorem floorCastI32_mul_fin_zero (a : F) :
    floorCastI32 (mul a (fin 0)) = 0 := by
  cases a <;> simp [mul, floorCastI32, i32clamp, i32min, i32max]

end F

theorem i32clamp_of_mem {z : Int} (h1 : i32min ≤ z) (h2 : z ≤ i32max) :
    i32clamp z = z := by
  simp only [i32clamp, i32min, i32max] at *
  omega

/-! ## Helper lemmas: `find_max` -/

theorem findMaxAux_nonNaN (arr : List F) :
    ∀ (i : ℕ) (acc : ℕ × F), acc.2.isNaN = false →
      ((findMaxAux arr i acc).2).isNaN = false := by
  induction arr with
  | nil => intro i acc h; simpa [findMaxAux] using h
  | cons v rest ih =>
    intro i acc h
    simp only [findMaxAux]
    rcases hv : F.fgt v acc.2 with _ | _
    · simpa [hv] using ih (i + 1) acc h
    · simpa [hv] using ih (i + 1) (i, v) (F.fgt_nonNaN_left hv)

theorem findMaxAux_all_nan (arr : List F) (h : ∀ v ∈ arr, v.isNaN = true) :
    ∀ (i : ℕ) (acc : ℕ × F), findMaxAux arr i acc = acc := by
  induction arr with
  | nil => intro i acc; rfl
  | cons v rest ih =>
    intro i acc
    have hv : F.fgt v acc.2 = false :=
      F.fgt_nan_left (h v (List.mem_cons_self v rest)) _
    simp only [findMaxAux, hv]
    simpa using ih (fun w hw => h w (List.mem_cons_of_mem v hw)) (i + 1) acc

/-- Dominance: the final running maximum is nan-free and dominates the
initial value and every element of the array. -/
theorem findMaxAux_dom (arr : List F) (hnn : ∀ v ∈ arr, v.isNaN = false) :
    ∀ (i mi : ℕ) (mv : F), mv.isNaN = false →
      F.toW mv ≤ F.toW (findMaxAux arr i (mi, mv)).2 ∧
      ∀ v ∈ arr, F.toW v ≤ F.toW (findMaxAux arr i (mi, mv)).2 := by
  induction arr with
  | nil => intro i mi mv h; simp [findMaxAux]
  | cons v rest ih =>
    intro i mi mv hmv
    have hvn : v.isNaN = false := hnn v (List.mem_cons_self v rest)
    have hrest : ∀ w ∈ rest, w.isNaN = false :=
      fun w hw => hnn w (List.mem_cons_of_mem v hw)
    rcases hv : F.fgt v mv with _ | _
    · have h := ih hrest (i + 1) mi mv hmv
      have hvm : F.toW v ≤ F.toW mv := (F.fgt_false_iff hvn hmv).mp hv
      refine ⟨?_, ?_⟩
      · simpa [findMaxAux, hv] using h.1
      · intro w hw
        rcases List.mem_cons.mp hw with rfl | hw'
        · simpa [findMaxAux, hv] using le_trans hvm h.1
        · simpa [findMaxAux, hv] using h.2 w hw'
    · have h := ih hrest (i + 1) i v hvn
      have hmv' : F.toW mv < F.toW v := (F.fgt_iff hvn hmv).mp hv
      refine ⟨?_, ?_⟩
      · simpa [findMaxAux, hv] using le_trans (le_of_lt hmv') h.1
      · intro w hw
        rcases List.mem_cons.mp hw with rfl | hw'
        · simpa [findMaxAux, hv] using h.1
        · simpa [findMaxAux, hv] using h.2 w hw'


/-- First occurrence: either the accumulator survives (no element
strictly beats it), or the result points at an element that beats the
accumulator and strictly dominates every earlier element. -/
theorem findMaxAux_first (arr : List F) (hnn : ∀ v ∈ arr, v.isNaN = false) :
    ∀ (i mi : ℕ) (mv : F), mv.isNaN = false →
      (findMaxAux arr i (mi, mv) = (mi, mv) ∧ ∀ v ∈ arr, F.fgt v mv = false) ∨
      (∃ j, j < arr.length ∧
        (findMaxAux arr i (mi, mv)).1 = i + j ∧
        (findMaxAux arr i (mi, mv)).2 = arr.getD j F.nan ∧
        F.fgt (arr.getD j F.nan) mv = true ∧
        ∀ k < j, F.toW (arr.getD k F.nan) < F.toW (arr.getD j F.nan)) := by
  induction arr with
  | nil => intro i mi mv _; exact Or.inl ⟨rfl, by simp⟩
  | cons v rest ih =>
    intro i mi mv hmv
    have hvn : v.isNaN = false := hnn v (List.mem_cons_self v rest)
    have hrest : ∀ w ∈ rest, w.isNaN = false :=
      fun w hw => hnn w (List.mem_cons_of_mem v hw)
    rcases hv : F.fgt v mv with _ | _
    · -- the head does not beat the accumulator
      have hstep : findMaxAux (v :: rest) i (mi, mv) = findMaxAux rest (i + 1) (mi, mv) := by
        simp [findMaxAux, hv]
      rcases ih hrest (i + 1) mi mv hmv with ⟨heq, hall⟩ | ⟨j, hj, h1, h2, h3, h4⟩
      · refine Or.inl ⟨hstep.trans heq, ?_⟩
        intro w hw
        rcases List.mem_cons.mp hw with rfl | hw'
        · exact hv
        · exact hall w hw'
      · refine Or.inr ⟨j + 1, by simpa using hj, ?_, ?_, ?_, ?_⟩
        · rw [hstep, h1]; omega
        · rw [hstep, h2, List.getD_cons_succ]
        · rw [List.getD_cons_succ]; exact h3
        · intro k hk
          match k, hk with
          | 0, _ =>
            have hvm : F.toW v ≤ F.toW mv := (F.fgt_false_iff hvn hmv).mp hv
            have hjn : (rest.getD j F.nan).isNaN = false := by
              rw [List.getD_eq_get _ _ hj]
              exact hrest _ (rest.get_mem _ _)
            have hjm : F.toW mv < F.toW (rest.getD j F.nan) :=
              (F.fgt_iff hjn hmv).mp h3
            rw [List.getD_cons_zero, List.getD_cons_succ]
            exact lt_of_le_of_lt hvm hjm
          | k' + 1, hk' =>
            rw [List.getD_cons_succ, List.getD_cons_succ]
            exact h4 k' (by omega)
    · -- the head beats the accumulator: it becomes the running maximum
      have hstep : findMaxAux (v :: rest) i (mi, mv) = findMaxAux rest (i + 1) (i, v) := by
        simp [findMaxAux, hv]
      rcases ih hrest (i + 1) i v hvn with ⟨heq, hall⟩ | ⟨j, hj, h1, h2, h3, h4⟩
      · refine Or.inr ⟨0, by simp, ?_, ?_, ?_, ?_⟩
        · rw [hstep, heq]; simp
        · rw [hstep, heq, List.getD_cons_zero]
        · rw [List.getD_cons_zero]; exact hv
        · intro k hk; omega
      · have hjn : (rest.getD j F.nan).isNaN = false := by
          rw [List.getD_eq_get _ _ hj]
          exact hrest _ (rest.get_mem _ _)
        have hjv : F.toW v < F.toW (rest.getD j F.nan) := (F.fgt_iff hjn hvn).mp h3
        refine Or.inr ⟨j + 1, by simpa using hj, ?_, ?_, ?_, ?_⟩
        · rw [hstep, h1]; omega
        · rw [hstep, h2, List.getD_cons_succ]
        · rw [List.getD_cons_succ]
          have hmv' : F.toW mv < F.toW v := (F.fgt_iff hvn hmv).mp hv
          exact (F.fgt_iff hjn hmv).mpr (lt_trans hmv' hjv)
        · intro k hk
          match k, hk with
          | 0, _ =>
            rw [List.getD_cons_zero, List.getD_cons_succ]
            exact hjv
          | k' + 1, hk' =>
            rw [List.getD_cons_succ, List.getD_cons_succ]
            exact h4 k' (by omega)

/-- For a nonempty nan-free array, `find_max` returns an in-range index
pointing at the returned value, the value dominates every element, and
every element before the index is strictly smaller. -/
theorem find_max_spec (arr : List F) (hne : arr ≠ [])
    (hnn : ∀ v ∈ arr, v.isNaN = false) :
    (find_max arr).1 < arr.length ∧
    arr.getD (find_max arr).1 F.nan = (find_max arr).2 ∧
    (∀ v ∈ arr, F.toW v ≤ F.toW (find_max arr).2) ∧
    ∀ k < (find_max arr).1, F.toW (arr.getD k F.nan) < F.toW (find_max arr).2 := by
  have hdom := findMaxAux_dom arr hnn 0 0 F.ninf rfl
  rcases findMaxAux_first arr hnn 0 0 F.ninf rfl with ⟨heq, hall⟩ | ⟨j, hj, h1, h2, h3, h4⟩
  · have hfm : find_max arr = (0, F.ninf) := heq
    rcases arr with _ | ⟨a, arr'⟩
    · exact absurd rfl hne
    · have han : a.isNaN = false := hnn a (List.mem_cons_self _ _)
      have ha : a = F.ninf := by
        have hle := (F.fgt_false_iff (b := F.ninf) han rfl).mp
          (hall a (List.mem_cons_self _ _))
        have hbot : F.toW a = ⊥ := le_bot_iff.mp (by simpa [F.toW] using hle)
        exact (F.toW_eq_bot_iff han).mp hbot
      subst ha
      refine ⟨by simp [hfm], ?_, hdom.2, ?_⟩
      · rw [hfm]
        simp [List.getD_cons_zero]
      · intro k hk
        simp [hfm] at hk
  · have hfm1 : (find_max arr).1 = j := by simpa [find_max] using h1
    have hfm2 : (find_max arr).2 = arr.getD j F.nan := by simpa [find_max] using h2
    refine ⟨hfm1 ▸ hj, ?_, hdom.2, ?_⟩
    · rw [hfm1, hfm2]
    · intro k hk
      rw [hfm1] at hk
      rw [hfm2]
      exact h4 k hk

/-- If one entry strictly dominates all others, `find_max` selects it. -/
theorem find_max_peak (arr : List F) (hnn : ∀ v ∈ arr, v.isNaN = false)
    (j : ℕ) (hj : j < arr.length)
    (hpeak : ∀ k < arr.length, k ≠ j →
      F.toW (arr.getD k F.nan) < F.toW (arr.getD j F.nan)) :
    find_max arr = (j, arr.getD j F.nan) := by
  have hne : arr ≠ [] := by
    intro h
    subst h
    simp at hj
  obtain ⟨hlen, hget, hdom, hbef⟩ := find_max_spec arr hne hnn
  have hpair : find_max arr = ((find_max arr).1, (find_max arr).2) := rfl
  by_cases hij : (find_max arr).1 = j
  · rw [hpair, hij, ← hget, hij]
  · exfalso
    have hlt := hpeak (find_max arr).1 hlen hij
    rw [hget] at hlt
    have hmem : arr.getD j F.nan ∈ arr := by
      rw [List.getD_eq_get _ _ hj]
      exact arr.get_mem _ _
    exact absurd (hdom _ hmem) (not_le.mpr hlt)

/-- `find_max` over a nonempty constant finite array returns index 0. -/
theorem find_max_const (arr : List F) (hne : arr ≠ []) (c : ℚ)
    (hc : ∀ v ∈ arr, v = F.fin c) : find_max arr = (0, F.fin c) := by
  have hnn : ∀ v ∈ arr, v.isNaN = false := fun v hv => by rw [hc v hv]; rfl
  obtain ⟨hlen, hget, hdom, hbef⟩ := find_max_spec arr hne hnn
  have hgetc : ∀ k, k < arr.length → arr.getD k F.nan = F.fin c := by
    intro k hk
    rw [List.getD_eq_get _ _ hk]
    exact hc _ (arr.get_mem _ _)
  have hpos : 0 < arr.length := List.length_pos.mpr hne
  have h1 : (find_max arr).1 = 0 := by
    by_contra h
    have h0 : 0 < (find_max arr).1 := Nat.pos_of_ne_zero h
    have hlt := hbef 0 h0
    rw [hgetc 0 hpos, ← hget, hgetc _ hlen] at hlt
    exact lt_irrefl _ hlt
  have h2 : (find_max arr).2 = F.fin c := by
    rw [← hget, h1, hgetc 0 hpos]
  have hpair : find_max arr = ((find_max arr).1, (find_max arr).2) := rfl
  rw [hpair, h1, h2]

/-! ## Helper lemmas: the windowed map and the decode branches -/

theorem conf_windowed_length (conf hann : ℕ → F) :
    (conf_windowed conf hann).length = 256 := by
  simp [conf_windowed]

theorem conf_windowed_ne_nil (conf hann : ℕ → F) :
    conf_windowed conf hann ≠ [] := by
  intro h
  have := conf_windowed_length conf hann
  rw [h] at this
  simp at this

theorem conf_windowed_getD (conf hann : ℕ → F) (k : ℕ) (hk : k < 256) :
    (conf_windowed conf hann).getD k F.nan = F.mul (conf k) (hann k) := by
  have hlen : k < (conf_windowed conf hann).length := by
    simpa [conf_windowed_length] using hk
  rw [List.getD_eq_get _ _ hlen]
  simp [conf_windowed]

theorem conf_windowed_mem (conf hann : ℕ → F) {v : F}
    (hv : v ∈ conf_windowed conf hann) : ∃ i < 256, v = F.mul (conf i) (hann i) := by
  simp only [conf_windowed, List.mem_map, List.mem_range] at hv
  rcases hv with ⟨i, hi, rfl⟩
  exact ⟨i, hi, rfl⟩

/-- The low-confidence branch of `process_outputs` (lines 104-110):
failure, previous rectangle untouched, score reported. -/
theorem process_outputs_fail (conf size offset hann : ℕ → F) (rect : BBox)
    (crop : Int) (t : F)
    (h : F.fge (find_max (conf_windowed conf hann)).2 t = false) :
    process_outputs conf size offset hann rect crop t =
      (⟨false, rect, (find_max (conf_windowed conf hann)).2⟩, rect) := by
  simp [process_outputs, h]

/-- The successful branch of `process_outputs` (lines 82-103), with the
peak grid cell spelled out as `(row, col)`. -/
theorem process_outputs_success_eq (conf size offset hann : ℕ → F) (rect : BBox)
    (crop : Int) (t : F) (row col : ℕ) (hcol : col < 16)
    (hidx : (find_max (conf_windowed conf hann)).1 = row * 16 + col)
    (hsucc : F.fge (find_max (conf_windowed conf hann)).2 t = true) :
    process_outputs conf size offset hann rect crop t =
      (⟨true,
        update_rect rect
          (F.div (F.add (F.fin col) (offset (row * 16 + col))) (F.fin 16))
          (F.div (F.add (F.fin row) (offset (256 + (row * 16 + col)))) (F.fin 16))
          (size (row * 16 + col)) (size (256 + (row * 16 + col))) crop,
        (find_max (conf_windowed conf hann)).2⟩,
       update_rect rect
          (F.div (F.add (F.fin col) (offset (row * 16 + col))) (F.fin 16))
          (F.div (F.add (F.fin row) (offset (256 + (row * 16 + col)))) (F.fin 16))
          (size (row * 16 + col)) (size (256 + (row * 16 + col))) crop) := by
  have hy : (find_max (conf_windowed conf hann)).1 / 16 = row := by omega
  have hx : (find_max (conf_windowed conf hann)).1 % 16 = col := by omega
  simp only [process_outputs, hsucc, if_true, hy, hx]
  norm_num [Nat.add_assoc]

/-- `update_rect` on finite inputs: exact rational arithmetic with the
floor and the saturating cast. -/
theorem update_rect_fin (rect : BBox) (cx cy w h : ℚ) (crop : Int) :
    update_rect rect (F.fin cx) (F.fin cy) (F.fin w) (F.fin h) crop =
      { x := i32clamp ⌊(cx - w / 2) * (crop : ℚ) + (rectOriginX rect crop : ℚ)⌋
        y := i32clamp ⌊(cy - h / 2) * (crop : ℚ) + (rectOriginY rect crop : ℚ)⌋
        width := i32clamp ⌊w * (crop : ℚ)⌋
        height := i32clamp ⌊h * (crop : ℚ)⌋ } := by
  have h2 : (2 : ℚ) ≠ 0 := by norm_num
  simp only [update_rect, F.div_fin _ h2, F.sub_fin, F.mul_fin, F.add_fin,
    F.floorCastI32_fin]

/-- Rust's truncating division by two, in terms of Euclidean division. -/
theorem tdiv_two_eq (d : ℤ) :
    Int.tdiv d 2 = if 0 ≤ d then d / 2 else -((-d) / 2) := by
  rcases le_or_lt 0 d with h | h
  · rw [if_pos h]
    exact Int.tdiv_eq_ediv h (by norm_num)
  · rw [if_neg (not_le.mpr h)]
    have hn : Int.tdiv (-d) 2 = (-d) / 2 := Int.tdiv_eq_ediv (by omega) (by norm_num)
    have h2 : Int.tdiv (-d) 2 = -(Int.tdiv d 2) := Int.neg_tdiv d 2
    omega

/-- The key rounding fact behind the decoder sanity bound: the
truncating half of `d` plus the floor of `-d/2` is 0 or -1. -/
theorem tdiv_add_floor_neg_half (d : ℤ) :
    Int.tdiv d 2 + ⌊((-d : ℤ) : ℚ) / 2⌋ = 0 ∨
    Int.tdiv d 2 + ⌊((-d : ℤ) : ℚ) / 2⌋ = -1 := by
  have hf : ⌊((-d : ℤ) : ℚ) / 2⌋ = (-d) / 2 := by
    have h := Rat.floor_intCast_div_natCast (-d) 2
    simpa using h
  rw [hf, tdiv_two_eq]
  split_ifs with h
  · omega
  · omega

theorem F.fge_eq_false_of_fgt {a b : F} (h : F.fgt a b = true) : F.fge b a = false := by
  cases a <;> cases b <;> simp_all [F.fgt, F.fge, not_le] <;> linarith

theorem F.mul_nan_left (b : F) : F.mul F.nan b = F.nan := by
  cases b <;> rfl

/-- The successful branch: the success flag is set and the score is the
windowed maximum. -/
theorem process_outputs_success_proj (conf size offset hann : ℕ → F)
    (rect : BBox) (crop : Int) (t : F)
    (h : F.fge (find_max (conf_windowed conf hann)).2 t = true) :
    (process_outputs conf size offset hann rect crop t).1.success = true ∧
    (process_outputs conf size offset hann rect crop t).1.score =
      (find_max (conf_windowed conf hann)).2 := by
  simp [process_outputs, h]

/-- C3: whenever the windowed maximum is below the threshold,
`process_outputs` returns a box equal to the previous box exactly, and
the caller-held rectangle comes back unmodified. -/
theorem C3_low_confidence_keeps_box (conf size offset hann : ℕ → F)
    (rect : BBox) (crop : Int) (threshold : F)
    (hbelow : F.fgt threshold (find_max (conf_windowed conf hann)).2 = true) :
    process_outputs conf size offset hann rect crop threshold =
      (⟨false, rect, (find_max (conf_windowed conf hann)).2⟩, rect) :=
  process_outputs_fail conf size offset hann rect crop threshold
    (F.fge_eq_false_of_fgt hbelow)

theorem C3_witness :
    process_outputs (fun _ => F.fin 0) (fun _ => F.fin 0) (fun _ => F.fin 0)
      (fun _ => F.fin 1) ⟨1, 2, 3, 4⟩ 10 (F.fin 1) =
      (⟨false, ⟨1, 2, 3, 4⟩, F.fin 0⟩, ⟨1, 2, 3, 4⟩) := by
  have hconst : ∀ v ∈ conf_windowed (fun _ => F.fin 0) (fun _ => F.fin 1),
      v = F.fin 0 := by
    intro v hv
    rcases conf_windowed_mem _ _ hv with ⟨i, hi, rfl⟩
    norm_num
  have hfm : find_max (conf_windowed (fun _ => F.fin 0) (fun _ => F.fin 1)) =
      (0, F.fin 0) :=
    find_max_const _ (conf_windowed_ne_nil _ _) 0 hconst
  have happ := C3_low_confidence_keeps_box (fun _ => F.fin 0) (fun _ => F.fin 0)
    (fun _ => F.fin 0) (fun _ => F.fin 1) ⟨1, 2, 3, 4⟩ 10 (F.fin 1)
    (by rw [hfm]; norm_num)
  rw [happ, hfm]

/-- C9: with `crop_size = 0` and a windowed maximum at or above the
threshold, `process_outputs` is total and collapses the new box to zero
width and height (in both the returned result and the caller-held
rectangle); the grid divisor is the constant 16, not `crop_size`. -/
theorem C9_zero_crop_collapses (conf size offset hann : ℕ → F) (rect : BBox)
    (t : F)
    (hsucc : F.fge (find_max (conf_windowed conf hann)).2 t = true) :
    (process_outputs conf size offset hann rect 0 t).1.success = true ∧
    (process_outputs conf size offset hann rect 0 t).1.bbox.width = 0 ∧
    (process_outputs conf size offset hann rect 0 t).1.bbox.height = 0 ∧
    (process_outputs conf size offset hann rect 0 t).2.width = 0 ∧
    (process_outputs conf size offset hann rect 0 t).2.height = 0 := by
  simp only [process_outputs, hsucc, if_true, update_rect]
  norm_num [F.floorCastI32_mul_fin_zero]

theorem C9_witness :
    (process_outputs (fun _ => F.fin 1) (fun _ => F.fin 1) (fun _ => F.fin 1)
      (fun _ => F.fin 1) ⟨7, 8, 9, 10⟩ 0 (F.fin 0)).1.success = true ∧
    (process_outputs (fun _ => F.fin 1) (fun _ => F.fin 1) (fun _ => F.fin 1)
      (fun _ => F.fin 1) ⟨7, 8, 9, 10⟩ 0 (F.fin 0)).1.bbox.width = 0 ∧
    (process_outputs (fun _ => F.fin 1) (fun _ => F.fin 1) (fun _ => F.fin 1)
      (fun _ => F.fin 1) ⟨7, 8, 9, 10⟩ 0 (F.fin 0)).1.bbox.height = 0 ∧
    (process_outputs (fun _ => F.fin 1) (fun _ => F.fin 1) (fun _ => F.fin 1)
      (fun _ => F.fin 1) ⟨7, 8, 9, 10⟩ 0 (F.fin 0)).2.width = 0 ∧
    (process_outputs (fun _ => F.fin 1) (fun _ => F.fin 1) (fun _ => F.fin 1)
      (fun _ => F.fin 1) ⟨7, 8, 9, 10⟩ 0 (F.fin 0)).2.height = 0 := by
  have hconst : ∀ v ∈ conf_windowed (fun _ => F.fin 1) (fun _ => F.fin 1),
      v = F.fin 1 := by
    intro v hv
    rcases conf_windowed_mem _ _ hv with ⟨i, hi, rfl⟩
    norm_num
  have hfm : find_max (conf_windowed (fun _ => F.fin 1) (fun _ => F.fin 1)) =
      (0, F.fin 1) :=
    find_max_const _ (conf_windowed_ne_nil _ _) 1 hconst
  exact C9_zero_crop_collapses (fun _ => F.fin 1) (fun _ => F.fin 1)
    (fun _ => F.fin 1) (fun _ => F.fin 1) ⟨7, 8, 9, 10⟩ (F.fin 0)
    (by rw [hfm]; norm_num)

/-- C10 (implicit): `find_max` never selects a nan entry (its comparison
is false on nan); an all-nan confidence map therefore decodes to index
0 with value negative infinity, and `process_outputs` with a finite
threshold reports failure with the previous box unchanged. -/
theorem C10_nan_never_selected :
    (∀ arr : List F, ((find_max arr).2).isNaN = false) ∧
    ∀ (conf size offset hann : ℕ → F) (rect : BBox) (crop : Int) (t : ℚ),
      (∀ i < 256, conf i = F.nan) →
      find_max (conf_windowed conf hann) = (0, F.ninf) ∧
      process_outputs conf size offset hann rect crop (F.fin t) =
        (⟨false, rect, F.ninf⟩, rect) := by
  constructor
  · intro arr
    exact findMaxAux_nonNaN arr 0 (0, F.ninf) rfl
  · intro conf size offset hann rect crop t hconf
    have hall : ∀ v ∈ conf_windowed conf hann, v.isNaN = true := by
      intro v hv
      rcases conf_windowed_mem _ _ hv with ⟨i, hi, rfl⟩
      rw [hconf i hi, F.mul_nan_left]
      rfl
    have hfm : find_max (conf_windowed conf hann) = (0, F.ninf) :=
      findMaxAux_all_nan _ hall 0 (0, F.ninf)
    refine ⟨hfm, ?_⟩
    have hfge : F.fge (find_max (conf_windowed conf hann)).2 (F.fin t) = false := by
      rw [hfm]
      rfl
    rw [process_outputs_fail _ _ _ _ _ _ _ hfge, hfm]

theorem C10_witness :
    find_max (conf_windowed (fun _ => F.nan) (fun _ => F.fin 1)) = (0, F.ninf) ∧
    process_outputs (fun _ => F.nan) (fun _ => F.fin 1) (fun _ => F.fin 1)
      (fun _ => F.fin 1) ⟨1, 2, 3, 4⟩ 64 (F.fin (1 / 4)) =
      (⟨false, ⟨1, 2, 3, 4⟩, F.ninf⟩, ⟨1, 2, 3, 4⟩) :=
  C10_nan_never_selected.2 (fun _ => F.nan) (fun _ => F.fin 1) (fun _ => F.fin 1)
    (fun _ => F.fin 1) ⟨1, 2, 3, 4⟩ 64 (1 / 4) (fun _ _ => rfl)

/-- C5: `update` on a tracker that was never initialised returns the
default result (failure, zero box, zero score) and the unchanged state,
for every inference collaborator (so the collaborator is not invoked,
the result being independent of it). -/
theorem C5_update_uninitialized
    (inference : List ℚ → List ℚ → Except RknnError VitTrackOutputs)
    (cropSz : BBox → ℕ → ℕ) (st : VitTrackState) (img : Image)
    (h : st.template = none) :
    VitTrack.update inference cropSz st img =
      some (Except.ok ⟨false, ⟨0, 0, 0, 0⟩, F.fin 0⟩, st) := by
  simp [VitTrack.update, h, TrackingResult.default]

theorem C5_witness :
    VitTrack.update (fun _ _ => Except.error RknnError.runError) (fun _ _ => 0)
      ⟨VitTrackConfig.default, fun _ => F.fin 0, none, ⟨0, 0, 0, 0⟩⟩
      ⟨0, 0, fun _ _ _ => 0⟩ =
      some (Except.ok ⟨false, ⟨0, 0, 0, 0⟩, F.fin 0⟩,
        ⟨VitTrackConfig.default, fun _ => F.fin 0, none, ⟨0, 0, 0, 0⟩⟩) :=
  C5_update_uninitialized (fun _ _ => Except.error RknnError.runError)
    (fun _ _ => 0) ⟨VitTrackConfig.default, fun _ => F.fin 0, none, ⟨0, 0, 0, 0⟩⟩
    ⟨0, 0, fun _ _ _ => 0⟩ rfl

theorem F.isFin_iff (a : F) : a.isFin = true ↔ ∃ q : ℚ, a = F.fin q := by
  cases a <;> simp [F.isFin]

/-- C2: with finite confidence and window entries and a finite
threshold, `process_outputs` succeeds exactly when the maximum of the
elementwise product `conf[i] * hanning[i]` is at least the threshold
(inclusive), and in both branches the reported score is that windowed
maximum. -/
theorem C2_success_iff_windowed_max (conf size offset hann : ℕ → F)
    (rect : BBox) (crop : Int) (t : ℚ)
    (hconf : ∀ i < 256, (conf i).isFin = true)
    (hhann : ∀ i < 256, (hann i).isFin = true) :
    ((process_outputs conf size offset hann rect crop (F.fin t)).1.success = true ↔
      t ≤ Finset.univ.sup' Finset.univ_nonempty
        (fun i : Fin 256 => (conf i.1).toRat * (hann i.1).toRat)) ∧
    (process_outputs conf size offset hann rect crop (F.fin t)).1.score =
      F.fin (Finset.univ.sup' Finset.univ_nonempty
        (fun i : Fin 256 => (conf i.1).toRat * (hann i.1).toRat)) := by
  have hex : ∀ i < 256, ∃ a b : ℚ, conf i = F.fin a ∧ hann i = F.fin b := by
    intro i hi
    obtain ⟨a, ha⟩ := (F.isFin_iff _).mp (hconf i hi)
    obtain ⟨b, hb⟩ := (F.isFin_iff _).mp (hhann i hi)
    exact ⟨a, b, ha, hb⟩
  have hnn : ∀ v ∈ conf_windowed conf hann, v.isNaN = false := by
    intro v hv
    rcases conf_windowed_mem _ _ hv with ⟨i, hi, rfl⟩
    obtain ⟨a, b, ha, hb⟩ := hex i hi
    rw [ha, hb, F.mul_fin]
    rfl
  obtain ⟨hlen, hget, hdom, _⟩ :=
    find_max_spec _ (conf_windowed_ne_nil conf hann) hnn
  rw [conf_windowed_length] at hlen
  obtain ⟨a, b, ha, hb⟩ := hex _ hlen
  have hval : (find_max (conf_windowed conf hann)).2 = F.fin (a * b) := by
    rw [← hget, conf_windowed_getD _ _ _ hlen, ha, hb, F.mul_fin]
  set M := Finset.univ.sup' Finset.univ_nonempty
    (fun i : Fin 256 => (conf i.1).toRat * (hann i.1).toRat) with hMdef
  have hMle : M ≤ a * b := by
    apply Finset.sup'_le
    intro i _
    obtain ⟨c, d, hc, hd⟩ := hex i.1 i.2
    have hmem : F.mul (conf i.1) (hann i.1) ∈ conf_windowed conf hann := by
      simp only [conf_windowed, List.mem_map, List.mem_range]
      exact ⟨i.1, i.2, rfl⟩
    have hle := hdom _ hmem
    rw [hval, hc, hd, F.mul_fin] at hle
    rw [hc, hd]
    simpa [F.toRat, F.toW_fin_le] using hle
  have hleM : a * b ≤ M := by
    have h := Finset.le_sup'
      (f := fun i : Fin 256 => (conf i.1).toRat * (hann i.1).toRat)
      (Finset.mem_univ (⟨(find_max (conf_windowed conf hann)).1, hlen⟩ : Fin 256))
    rw [← hMdef] at h
    simp only [ha, hb] at h
    simpa [F.toRat] using h
  have hM : M = a * b := le_antisymm hMle hleM
  rcases hc : F.fge (find_max (conf_windowed conf hann)).2 (F.fin t) with _ | _
  · have hp := process_outputs_fail conf size offset hann rect crop (F.fin t) hc
    rw [hval] at hc
    simp only [F.fge_fin_fin, decide_eq_false_iff_not] at hc
    rw [hp]
    refine ⟨?_, ?_⟩
    · rw [hM]
      simp [hc]
    · show (find_max (conf_windowed conf hann)).2 = F.fin M
      rw [hval, hM]
  · have hp := process_outputs_success_proj conf size offset hann rect crop (F.fin t) hc
    rw [hval] at hc
    simp only [F.fge_fin_fin, decide_eq_true_eq] at hc
    refine ⟨?_, ?_⟩
    · rw [hp.1, hM]
      simp [hc]
    · rw [hp.2, hval, hM]

theorem C2_witness :
    ((process_outputs (fun _ => F.fin 0) (fun _ => F.fin 0) (fun _ => F.fin 0)
        (fun _ => F.fin 0) ⟨0, 0, 0, 0⟩ 5 (F.fin 1)).1.success = true ↔
      1 ≤ Finset.univ.sup' Finset.univ_nonempty
        (fun i : Fin 256 =>
          ((fun _ : ℕ => F.fin 0) i.1).toRat * ((fun _ : ℕ => F.fin 0) i.1).toRat)) ∧
    (process_outputs (fun _ => F.fin 0) (fun _ => F.fin 0) (fun _ => F.fin 0)
        (fun _ => F.fin 0) ⟨0, 0, 0, 0⟩ 5 (F.fin 1)).1.score =
      F.fin (Finset.univ.sup' Finset.univ_nonempty
        (fun i : Fin 256 =>
          ((fun _ : ℕ => F.fin 0) i.1).toRat * ((fun _ : ℕ => F.fin 0) i.1).toRat)) :=
  C2_success_iff_windowed_max (fun _ => F.fin 0) (fun _ => F.fin 0)
    (fun _ => F.fin 0) (fun _ => F.fin 0) ⟨0, 0, 0, 0⟩ 5 1
    (fun _ _ => rfl) (fun _ _ => rfl)

/-- C7: on a nonempty array without nans, `find_max` returns the first
occurrence (scan order) of the maximum together with that value: the
index is in range and points at the returned value, no entry compares
greater, and every entry before the index differs from the value; on
`[0.1, 0.5, 0.3, 0.9, 0.2]` it returns index 3 and value 0.9. -/
theorem C7_find_max_first_occurrence :
    (∀ arr : List F, arr ≠ [] → (∀ v ∈ arr, v.isNaN = false) →
      (find_max arr).1 < arr.length ∧
      arr.getD (find_max arr).1 F.nan = (find_max arr).2 ∧
      (∀ k < arr.length, F.fgt (arr.getD k F.nan) (find_max arr).2 = false) ∧
      (∀ k < (find_max arr).1, arr.getD k F.nan ≠ (find_max arr).2)) ∧
    find_max [F.fin 0.1, F.fin 0.5, F.fin 0.3, F.fin 0.9, F.fin 0.2] =
      (3, F.fin 0.9) := by
  constructor
  · intro arr hne hnn
    obtain ⟨hlen, hget, hdom, hbef⟩ := find_max_spec arr hne hnn
    refine ⟨hlen, hget, ?_, ?_⟩
    · intro k hk
      have hmem : arr.getD k F.nan ∈ arr := by
        rw [List.getD_eq_get _ _ hk]
        exact arr.get_mem _ _
      have hmemr : arr.getD (find_max arr).1 F.nan ∈ arr := by
        rw [List.getD_eq_get _ _ hlen]
        exact arr.get_mem _ _
      have hres : ((find_max arr).2).isNaN = false := by
        rw [← hget]
        exact hnn _ hmemr
      exact (F.fgt_false_iff (hnn _ hmem) hres).mpr (hdom _ hmem)
    · intro k hk heq
      have hlt := hbef k hk
      rw [heq] at hlt
      exact lt_irrefl _ hlt
  · norm_num [find_max, findMaxAux]

theorem C7_witness :
    (find_max [F.fin 1, F.fin 2]).1 < [F.fin 1, F.fin 2].length ∧
    [F.fin 1, F.fin 2].getD (find_max [F.fin 1, F.fin 2]).1 F.nan =
      (find_max [F.fin 1, F.fin 2]).2 ∧
    (∀ k < [F.fin 1, F.fin 2].length,
      F.fgt ([F.fin 1, F.fin 2].getD k F.nan) (find_max [F.fin 1, F.fin 2]).2 =
        false) ∧
    (∀ k < (find_max [F.fin 1, F.fin 2]).1,
      [F.fin 1, F.fin 2].getD k F.nan ≠ (find_max [F.fin 1, F.fin 2]).2) :=
  C7_find_max_first_occurrence.1 [F.fin 1, F.fin 2] (by simp)
    (by intro v hv; rcases List.mem_cons.mp hv with rfl | hv; · rfl
        · rcases List.mem_cons.mp hv with rfl | hv; · rfl
          · simp at hv)

/-- `update` never changes the cached template. -/
theorem update_template_eq
    {inference : List ℚ → List ℚ → Except RknnError VitTrackOutputs}
    {cropSz : BBox → ℕ → ℕ} {st : VitTrackState} {img : Image}
    {r : Except RknnError TrackingResult} {st' : VitTrackState}
    (h : VitTrack.update inference cropSz st img = some (r, st')) :
    st'.template = st.template := by
  cases ht : st.template with
  | none =>
    simp only [VitTrack.update, ht, Option.some.injEq, Prod.mk.injEq] at h
    rw [← h.2]
    exact ht
  | some tmpl =>
    cases hcrop : crop_and_preprocess img st.rect_last
        (cropSz st.rect_last st.config.search_factor) st.config.search_size with
    | none =>
      simp [VitTrack.update, ht, hcrop] at h
    | some p =>
      obtain ⟨search, crop⟩ := p
      cases hinf : inference tmpl search with
      | error e =>
        simp only [VitTrack.update, ht, hcrop, hinf, Option.some.injEq,
          Prod.mk.injEq] at h
        rw [← h.2]
        exact ht
      | ok outputs =>
        simp only [VitTrack.update, ht, hcrop, hinf, Option.some.injEq,
          Prod.mk.injEq] at h
        rw [← h.2]

/-- Tracker invariant: a reachable state without a template still holds
the zero rectangle from construction. -/
theorem reachable_uninit_rect {st : VitTrackState} (h : Reachable st) :
    st.template = none → st.rect_last = ⟨0, 0, 0, 0⟩ := by
  induction h with
  | construct cfg hanning => intro _; rfl
  | init_step hst hinit ih =>
    intro hnone
    exfalso
    rename_i st0 st1 cropSz img bbox
    cases hcrop : crop_and_preprocess img bbox
        (cropSz bbox st0.config.template_factor) st0.config.template_size with
    | none =>
      simp [VitTrack.init, hcrop] at hinit
    | some p =>
      obtain ⟨tmpl, u⟩ := p
      simp only [VitTrack.init, hcrop, Option.some.injEq] at hinit
      rw [← hinit] at hnone
      simp at hnone
  | update_step hst hupd ih =>
    intro hnone
    have htempl := update_template_eq hupd
    rw [htempl] at hnone
    rename_i st0 st1 inference cropSz img r
    simp only [VitTrack.update, hnone, Option.some.injEq, Prod.mk.injEq] at hupd
    rw [← hupd.2]
    exact ih hnone

/-- Both branches of the decoder return the same rectangle in the result
and in the threaded reference. -/
theorem process_outputs_bbox_eq (conf size offset hann : ℕ → F) (rect : BBox)
    (crop : Int) (t : F) :
    (process_outputs conf size offset hann rect crop t).1.bbox =
      (process_outputs conf size offset hann rect crop t).2 := by
  simp only [process_outputs]
  split <;> rfl

/-- C6: after an `update` that returns `Ok(result)` on a reachable
state, the stored last box (`get_bbox`) equals `result.bbox` whether or
not the decode succeeded, and an initialized tracker stays
initialized. -/
theorem C6_update_adopts_box
    (inference : List ℚ → List ℚ → Except RknnError VitTrackOutputs)
    (cropSz : BBox → ℕ → ℕ) (st : VitTrackState) (img : Image)
    (r : TrackingResult) (st' : VitTrackState)
    (hreach : Reachable st)
    (hupd : VitTrack.update inference cropSz st img = some (Except.ok r, st')) :
    VitTrack.get_bbox st' = r.bbox ∧
    (VitTrack.isInitialized st = true → VitTrack.isInitialized st' = true) := by
  constructor
  · cases ht : st.template with
    | none =>
      simp only [VitTrack.update, ht, Option.some.injEq, Prod.mk.injEq,
        Except.ok.injEq] at hupd
      have hrect := reachable_uninit_rect hreach ht
      rw [VitTrack.get_bbox, ← hupd.2, hrect, ← hupd.1]
      rfl
    | some tmpl =>
      cases hcrop : crop_and_preprocess img st.rect_last
          (cropSz st.rect_last st.config.search_factor) st.config.search_size with
      | none =>
        simp [VitTrack.update, ht, hcrop] at hupd
      | some p =>
        obtain ⟨search, crop⟩ := p
        cases hinf : inference tmpl search with
        | error e =>
          simp [VitTrack.update, ht, hcrop, hinf] at hupd
        | ok outputs =>
          simp only [VitTrack.update, ht, hcrop, hinf, Option.some.injEq,
            Prod.mk.injEq, Except.ok.injEq] at hupd
          rw [VitTrack.get_bbox, ← hupd.2, ← hupd.1]
          exact (process_outputs_bbox_eq _ _ _ _ _ _ _).symm
  · intro hinit
    unfold VitTrack.isInitialized at *
    rw [update_template_eq hupd]
    exact hinit

theorem C6_witness :
    VitTrack.get_bbox
      (⟨VitTrackConfig.default, fun _ => F.fin 0, none, ⟨0, 0, 0, 0⟩⟩ :
        VitTrackState) = TrackingResult.default.bbox ∧
    (VitTrack.isInitialized
        (⟨VitTrackConfig.default, fun _ => F.fin 0, none, ⟨0, 0, 0, 0⟩⟩ :
          VitTrackState) = true →
      VitTrack.isInitialized
        (⟨VitTrackConfig.default, fun _ => F.fin 0, none, ⟨0, 0, 0, 0⟩⟩ :
          VitTrackState) = true) :=
  C6_update_adopts_box (fun _ _ => Except.error RknnError.runError)
    (fun _ _ => 0)
    ⟨VitTrackConfig.default, fun _ => F.fin 0, none, ⟨0, 0, 0, 0⟩⟩
    ⟨0, 0, fun _ _ _ => 0⟩ TrackingResult.default
    ⟨VitTrackConfig.default, fun _ => F.fin 0, none, ⟨0, 0, 0, 0⟩⟩
    (Reachable.construct _ _) rfl

/-- C4: on a successful decode with peak at grid cell `(row, col)` and
finite offset/size values, the new box (both in the result and in the
threaded rectangle) follows the spec formulas of `spec_decode_box`
(truncating integer division for the origin, floors for the
coordinates), provided the four results are within the `i32` range; and
the decoder's origin coincides per axis with the image-space top-left
corner `(x1, y1)` of the crop computed by `crop_and_preprocess`. -/
theorem C4_success_decode_formulas (conf size offset hann : ℕ → F)
    (rect : BBox) (crop : Int) (t : F) (row col : ℕ) (ox oy sw sh : ℚ)
    (hcol : col < 16)
    (hidx : (find_max (conf_windowed conf hann)).1 = row * 16 + col)
    (hsucc : F.fge (find_max (conf_windowed conf hann)).2 t = true)
    (hox : offset (row * 16 + col) = F.fin ox)
    (hoy : offset (256 + (row * 16 + col)) = F.fin oy)
    (hsw : size (row * 16 + col) = F.fin sw)
    (hsh : size (256 + (row * 16 + col)) = F.fin sh)
    (hxr : i32min ≤ (spec_decode_box rect crop row col ox oy sw sh).x ∧
      (spec_decode_box rect crop row col ox oy sw sh).x ≤ i32max)
    (hyr : i32min ≤ (spec_decode_box rect crop row col ox oy sw sh).y ∧
      (spec_decode_box rect crop row col ox oy sw sh).y ≤ i32max)
    (hwr : i32min ≤ (spec_decode_box rect crop row col ox oy sw sh).width ∧
      (spec_decode_box rect crop row col ox oy sw sh).width ≤ i32max)
    (hhr : i32min ≤ (spec_decode_box rect crop row col ox oy sw sh).height ∧
      (spec_decode_box rect crop row col ox oy sw sh).height ≤ i32max) :
    process_outputs conf size offset hann rect crop t =
      (⟨true, spec_decode_box rect crop row col ox oy sw sh,
        (find_max (conf_windowed conf hann)).2⟩,
       spec_decode_box rect crop row col ox oy sw sh) ∧
    (∀ (img : Image) (b : BBox) (c : ℕ),
      (cropGeom img b c).x1 = rectOriginX b c ∧
      (cropGeom img b c).y1 = rectOriginY b c) := by
  have h16 : (16 : ℚ) ≠ 0 := by norm_num
  constructor
  · have hbox :
        update_rect rect
          (F.div (F.add (F.fin (col : ℚ)) (offset (row * 16 + col))) (F.fin 16))
          (F.div (F.add (F.fin (row : ℚ)) (offset (256 + (row * 16 + col)))) (F.fin 16))
          (size (row * 16 + col)) (size (256 + (row * 16 + col))) crop =
        spec_decode_box rect crop row col ox oy sw sh := by
      rw [hox, hoy, hsw, hsh, F.add_fin, F.add_fin, F.div_fin _ h16,
        F.div_fin _ h16, update_rect_fin]
      simp only [spec_decode_box, rectOriginX, rectOriginY] at hxr hyr hwr hhr ⊢
      rw [i32clamp_of_mem hxr.1 hxr.2, i32clamp_of_mem hyr.1 hyr.2,
        i32clamp_of_mem hwr.1 hwr.2, i32clamp_of_mem hhr.1 hhr.2]
    rw [process_outputs_success_eq conf size offset hann rect crop t row col
      hcol hidx hsucc, hbox]
  · intro img b c
    constructor <;> rfl

theorem C4_witness :
    process_outputs (fun _ => F.fin 1) (fun _ => F.fin (1 / 2)) (fun _ => F.fin 0)
      (fun _ => F.fin 1) ⟨0, 0, 32, 32⟩ 64 (F.fin 0) =
      (⟨true, spec_decode_box ⟨0, 0, 32, 32⟩ 64 0 0 0 0 (1 / 2) (1 / 2),
        (find_max (conf_windowed (fun _ => F.fin 1) (fun _ => F.fin 1))).2⟩,
       spec_decode_box ⟨0, 0, 32, 32⟩ 64 0 0 0 0 (1 / 2) (1 / 2)) ∧
    (∀ (img : Image) (b : BBox) (c : ℕ),
      (cropGeom img b c).x1 = rectOriginX b c ∧
      (cropGeom img b c).y1 = rectOriginY b c) := by
  have hconst : ∀ v ∈ conf_windowed (fun _ => F.fin 1) (fun _ => F.fin 1),
      v = F.fin 1 := by
    intro v hv
    rcases conf_windowed_mem _ _ hv with ⟨i, hi, rfl⟩
    norm_num
  have hfm : find_max (conf_windowed (fun _ => F.fin 1) (fun _ => F.fin 1)) =
      (0, F.fin 1) :=
    find_max_const _ (conf_windowed_ne_nil _ _) 1 hconst
  have hspec : spec_decode_box ⟨0, 0, 32, 32⟩ 64 0 0 0 0 (1 / 2) (1 / 2) =
      ⟨-32, -32, 32, 32⟩ := by
    norm_num [spec_decode_box, show Int.tdiv ((32 : ℤ) - 64) 2 = -16 from by decide,
      show Int.tdiv (32 : ℤ) 2 = 16 from by decide]
  exact C4_success_decode_formulas (fun _ => F.fin 1) (fun _ => F.fin (1 / 2))
    (fun _ => F.fin 0) (fun _ => F.fin 1) ⟨0, 0, 32, 32⟩ 64 (F.fin 0)
    0 0 0 0 (1 / 2) (1 / 2)
    (by norm_num)
    (by rw [hfm])
    (by rw [hfm]; norm_num)
    rfl rfl rfl rfl
    (by rw [hspec]; exact ⟨by decide, by decide⟩)
    (by rw [hspec]; exact ⟨by decide, by decide⟩)
    (by rw [hspec]; exact ⟨by decide, by decide⟩)
    (by rw [hspec]; exact ⟨by decide, by decide⟩)

/-- Decoding the exact centre cell with matching size: the back-projected
x-coordinate lands on the previous coordinate or one pixel below. -/
theorem decode_center_floor (X W S : ℤ) (hS : (S : ℚ) ≠ 0) :
    ⌊((1 / 2 : ℚ) - ((W : ℚ) / (S : ℚ)) / 2) * (S : ℚ) +
        ((X + Int.tdiv (W - S) 2 : ℤ) : ℚ)⌋ = X ∨
    ⌊((1 / 2 : ℚ) - ((W : ℚ) / (S : ℚ)) / 2) * (S : ℚ) +
        ((X + Int.tdiv (W - S) 2 : ℤ) : ℚ)⌋ = X - 1 := by
  have h1 : ((1 / 2 : ℚ) - ((W : ℚ) / (S : ℚ)) / 2) * (S : ℚ) =
      ((S - W : ℤ) : ℚ) / 2 := by
    push_cast
    field_simp
    ring
  rw [h1, Int.floor_add_int]
  have h2 := tdiv_add_floor_neg_half (W - S)
  rw [neg_sub] at h2
  omega

theorem i32min_val : i32min = -2147483648 := by decide

theorem i32max_val : i32max = 2147483647 := by decide

/-- C8: a successful decode whose windowed peak is the centre cell
(8, 8) with zero offsets and size maps matching the previous box
proportions over the crop size reproduces the previous box up to one
pixel in each of the four components (for boxes and positions in the
`i32` range). -/
theorem C8_center_peak_within_one (conf size offset hann : ℕ → F)
    (rect : BBox) (crop : Int) (t : F)
    (hw : 0 < rect.width) (hh : 0 < rect.height) (hc : 0 < crop)
    (hidx : (find_max (conf_windowed conf hann)).1 = 136)
    (hsucc : F.fge (find_max (conf_windowed conf hann)).2 t = true)
    (hox : offset 136 = F.fin 0) (hoy : offset 392 = F.fin 0)
    (hsw : size 136 = F.fin ((rect.width : ℚ) / (crop : ℚ)))
    (hsh : size 392 = F.fin ((rect.height : ℚ) / (crop : ℚ)))
    (hxlo : i32min ≤ rect.x - 1) (hxhi : rect.x ≤ i32max)
    (hylo : i32min ≤ rect.y - 1) (hyhi : rect.y ≤ i32max)
    (hwhi : rect.width ≤ i32max) (hhhi : rect.height ≤ i32max) :
    |(process_outputs conf size offset hann rect crop t).1.bbox.x - rect.x| ≤ 1 ∧
    |(process_outputs conf size offset hann rect crop t).1.bbox.y - rect.y| ≤ 1 ∧
    |(process_outputs conf size offset hann rect crop t).1.bbox.width -
      rect.width| ≤ 1 ∧
    |(process_outputs conf size offset hann rect crop t).1.bbox.height -
      rect.height| ≤ 1 := by
  have hS : (crop : ℚ) ≠ 0 := Int.cast_ne_zero.mpr (by omega)
  have h16 : (16 : ℚ) ≠ 0 := by norm_num
  have hmain := process_outputs_success_eq conf size offset hann rect crop t 8 8
    (by norm_num) (by rw [hidx]) hsucc
  norm_num at hmain
  rw [hox, hoy, hsw, hsh, F.add_fin, F.div_fin _ h16, update_rect_fin] at hmain
  rw [show ((8 : ℚ) + 0) / 16 = 1 / 2 from by norm_num] at hmain
  simp only [rectOriginX, rectOriginY] at hmain
  have hx := decode_center_floor rect.x rect.width crop hS
  have hy := decode_center_floor rect.y rect.height crop hS
  have hwfl : ⌊(rect.width : ℚ) / (crop : ℚ) * (crop : ℚ)⌋ = rect.width := by
    rw [div_mul_cancel₀ _ hS]
    exact Int.floor_intCast _
  have hhfl : ⌊(rect.height : ℚ) / (crop : ℚ) * (crop : ℚ)⌋ = rect.height := by
    rw [div_mul_cancel₀ _ hS]
    exact Int.floor_intCast _
  rw [hmain]
  have hmin := i32min_val
  have hmax := i32max_val
  refine ⟨?_, ?_, ?_, ?_⟩
  · show |i32clamp ⌊((1 / 2 : ℚ) - (rect.width : ℚ) / (crop : ℚ) / 2) * (crop : ℚ) +
      ((rect.x + Int.tdiv (rect.width - crop) 2 : ℤ) : ℚ)⌋ - rect.x| ≤ 1
    rcases hx with hx | hx <;>
      rw [hx] <;> rw [i32clamp_of_mem (by omega) (by omega)] <;>
      rw [abs_le] <;> omega
  · show |i32clamp ⌊((1 / 2 : ℚ) - (rect.height : ℚ) / (crop : ℚ) / 2) * (crop : ℚ) +
      ((rect.y + Int.tdiv (rect.height - crop) 2 : ℤ) : ℚ)⌋ - rect.y| ≤ 1
    rcases hy with hy | hy <;>
      rw [hy] <;> rw [i32clamp_of_mem (by omega) (by omega)] <;>
      rw [abs_le] <;> omega
  · show |i32clamp ⌊(rect.width : ℚ) / (crop : ℚ) * (crop : ℚ)⌋ - rect.width| ≤ 1
    rw [hwfl, i32clamp_of_mem (by omega) (by omega), abs_le]
    omega
  · show |i32clamp ⌊(rect.height : ℚ) / (crop : ℚ) * (crop : ℚ)⌋ - rect.height| ≤ 1
    rw [hhfl, i32clamp_of_mem (by omega) (by omega), abs_le]
    omega

theorem C8_witness :
    |(process_outputs (fun i => if i = 136 then F.fin 1 else F.fin 0)
        (fun i => if i < 256 then F.fin (((32 : ℤ) : ℚ) / ((64 : ℤ) : ℚ))
          else F.fin (((16 : ℤ) : ℚ) / ((64 : ℤ) : ℚ)))
        (fun _ => F.fin 0) (fun _ => F.fin 1)
        ⟨10, 20, 32, 16⟩ 64 (F.fin 0)).1.bbox.x - (10 : ℤ)| ≤ 1 ∧
    |(process_outputs (fun i => if i = 136 then F.fin 1 else F.fin 0)
        (fun i => if i < 256 then F.fin (((32 : ℤ) : ℚ) / ((64 : ℤ) : ℚ))
          else F.fin (((16 : ℤ) : ℚ) / ((64 : ℤ) : ℚ)))
        (fun _ => F.fin 0) (fun _ => F.fin 1)
        ⟨10, 20, 32, 16⟩ 64 (F.fin 0)).1.bbox.y - (20 : ℤ)| ≤ 1 ∧
    |(process_outputs (fun i => if i = 136 then F.fin 1 else F.fin 0)
        (fun i => if i < 256 then F.fin (((32 : ℤ) : ℚ) / ((64 : ℤ) : ℚ))
          else F.fin (((16 : ℤ) : ℚ) / ((64 : ℤ) : ℚ)))
        (fun _ => F.fin 0) (fun _ => F.fin 1)
        ⟨10, 20, 32, 16⟩ 64 (F.fin 0)).1.bbox.width - (32 : ℤ)| ≤ 1 ∧
    |(process_outputs (fun i => if i = 136 then F.fin 1 else F.fin 0)
        (fun i => if i < 256 then F.fin (((32 : ℤ) : ℚ) / ((64 : ℤ) : ℚ))
          else F.fin (((16 : ℤ) : ℚ) / ((64 : ℤ) : ℚ)))
        (fun _ => F.fin 0) (fun _ => F.fin 1)
        ⟨10, 20, 32, 16⟩ 64 (F.fin 0)).1.bbox.height - (16 : ℤ)| ≤ 1 := by
  have hnn : ∀ v ∈ conf_windowed (fun i => if i = 136 then F.fin 1 else F.fin 0)
      (fun _ => F.fin 1), v.isNaN = false := by
    intro v hv
    rcases conf_windowed_mem _ _ hv with ⟨i, hi, rfl⟩
    by_cases h : i = 136 <;> simp [h, F.isNaN]
  have hlen136 : (136 : ℕ) <
      (conf_windowed (fun i => if i = 136 then F.fin 1 else F.fin 0)
        (fun _ => F.fin 1)).length := by
    rw [conf_windowed_length]
    norm_num
  have hpk : find_max (conf_windowed (fun i => if i = 136 then F.fin 1 else F.fin 0)
      (fun _ => F.fin 1)) =
      (136, (conf_windowed (fun i => if i = 136 then F.fin 1 else F.fin 0)
        (fun _ => F.fin 1)).getD 136 F.nan) := by
    apply find_max_peak _ hnn 136 hlen136
    intro k hk hkne
    rw [conf_windowed_length] at hk
    rw [conf_windowed_getD _ _ _ hk, conf_windowed_getD _ _ _ (by norm_num)]
    simp [hkne, F.toW_fin_lt]
  have hgd : (conf_windowed (fun i => if i = 136 then F.fin 1 else F.fin 0)
      (fun _ => F.fin 1)).getD 136 F.nan = F.fin 1 := by
    rw [conf_windowed_getD _ _ _ (by norm_num)]
    norm_num
  exact C8_center_peak_within_one
    (fun i => if i = 136 then F.fin 1 else F.fin 0)
    (fun i => if i < 256 then F.fin (((32 : ℤ) : ℚ) / ((64 : ℤ) : ℚ))
      else F.fin (((16 : ℤ) : ℚ) / ((64 : ℤ) : ℚ)))
    (fun _ => F.fin 0) (fun _ => F.fin 1)
    ⟨10, 20, 32, 16⟩ 64 (F.fin 0)
    (by decide) (by decide) (by decide)
    (by rw [hpk])
    (by rw [hpk, hgd]; norm_num)
    rfl rfl rfl rfl
    (by decide) (by decide) (by decide) (by decide) (by decide) (by decide)

/-- C1 (failing input): for the 480x640 image and the box
`(x, y, w, h) = (-1000, 100, 50, 50)` the crop size computed by
preprocess.rs line 67 is exactly `ceil(sqrt(2500) * 2) = 100` (both
values exact in `f32`), the crop's x-range `[-1025, -925)` lies fully
outside the image (`x2 < 0`), and `crop_and_preprocess` panics instead
of returning the all-zero-equivalent tensor: the wrapped
`(x2 - x2_pad) as usize` makes `src_w` huge, the guard passes, and the
first iteration writes at column `dst_x1 = 1025` of the 100-column crop
buffer. -/
theorem C1_fully_outside_crop_panics :
    (cropGeom ⟨480, 640, fun _ _ _ => 0⟩ ⟨-1000, 100, 50, 50⟩ 100).x2 < 0 ∧
    crop_and_preprocess ⟨480, 640, fun _ _ _ => 0⟩ ⟨-1000, 100, 50, 50⟩ 100 256 =
      none := by
  constructor
  · decide
  · have hpanic : CropPanics ⟨480, 640, fun _ _ _ => 0⟩ ⟨-1000, 100, 50, 50⟩ 100 := by
      simp only [CropPanics]
      exact ⟨by decide, by decide, by decide, by decide, 0, by decide, 0, by decide,
        ⟨by decide, by decide⟩, Or.inr (by decide)⟩
    simp [crop_and_preprocess, hpanic]
